import Mathlib

/-!
Shallow embedding of the `SQLQueue` class (`src/sqlqueue.py`) of the
`sqlconn` repository, together with theorems settling the specification
claims about its lease lifecycle: enqueuing (`put`), priority-ordered
claiming (`claim`), fetching (`get`), finishing (`finish`), recovery
scanning (`cleanup_long_running_rows`), administrative eviction
(`set_destroyed`), status lookup (`get_status`), and schema creation
(`create_table`).

The backing table is modelled as a list of rows; the database clock
(`now()`) and the caller's hostname are explicit parameters; SQL
timestamps are rationals (seconds); the serial `sq_id` counter is part
of the state.
-/

namespace SqlQueue

/-- Status constant `SQLQueue.STATUS_AVAILABLE`. -/
def STATUS_AVAILABLE : String := "AVAILABLE"

/-- Status constant `SQLQueue.STATUS_CLAIMED`. -/
def STATUS_CLAIMED : String := "CLAIMED"

/-- Status constant `SQLQueue.STATUS_PROGRESS`. -/
def STATUS_PROGRESS : String := "IN_PROGRESS"

/-- Status constant `SQLQueue.STATUS_COMPLETED`. -/
def STATUS_COMPLETED : String := "COMPLETED"

/-- Status constant `SQLQueue.STATUS_NOEXIST`. -/
def STATUS_NOEXIST : String := "DOESNOTEXIST"

/-- Status constant `SQLQueue.STATUS_DESTROYED`. -/
def STATUS_DESTROYED : String := "DESTROYED"

/-- Priority bound `SQLQueue.MAX_PRIORITY`. -/
def MAX_PRIORITY : Int := 10

/-- Priority bound `SQLQueue.MIN_PRIORITY`. -/
def MIN_PRIORITY : Int := 1

/-- The `SQLConn.POSTGRES` dialect tag. -/
def POSTGRES : String := "postgresql+psycopg2"

/-- One row of the queue table: the managed meta columns plus the
caller's opaque payload columns (name/value pairs).  Timestamp columns
are nullable (`Option`), as in the schema built by `create_table`. -/
structure QRow where
  sq_id : Nat
  sq_priority : Int
  sq_status : String
  sq_put_time : Option Rat
  sq_put_hostname : Option String
  sq_claim_time : Option Rat
  sq_claim_hostname : Option String
  sq_get_time : Option Rat
  sq_get_hostname : Option String
  sq_finish_time : Option Rat
  payload : List (String × String)
  deriving Repr, DecidableEq

/-- The queue table: its rows, plus the next value of the `serial`
primary-key sequence backing `sq_id` (which starts at 1). -/
structure QState where
  rows : List QRow
  next_id : Nat
  deriving Repr, DecidableEq

/-- One row of a caller's dataframe passed to `put`: the payload
columns, plus the values the dataframe may carry in the managed columns
`sq_priority`, `sq_status` and `sq_put_hostname` (the latter two are
always overwritten by `put`; `pri` is only meaningful when the batch
has an `sq_priority` column). -/
structure InRow where
  payload : List (String × String)
  pri : Int
  in_status : String
  in_put_hostname : String
  deriving Repr, DecidableEq

/-- A caller's dataframe for `put`: whether it has an `sq_priority`
column, and its rows. -/
structure InBatch where
  has_priority_col : Bool
  rows : List InRow
  deriving Repr, DecidableEq

/-- The two clamping lines of `SQLQueue.put`, applied to the `priority`
argument:
`priority = MAX_PRIORITY if priority > MAX_PRIORITY else priority` and
then `priority = MIN_PRIORITY if priority < MIN_PRIORITY else priority`. -/
def clampArg (p : Int) : Int :=
  let p1 := if p > MAX_PRIORITY then MAX_PRIORITY else p
  if p1 < MIN_PRIORITY then MIN_PRIORITY else p1

/-- The rows appended by `SQLQueue.put`: consecutive serial ids starting
at `nid`; `sq_priority` from the dataframe column when `usePri`, else the
clamped argument; `sq_status = AVAILABLE` and `sq_put_hostname = host`
stamped unconditionally (overwriting whatever the dataframe carried);
`sq_put_time` filled by the column default `now()` on insert. -/
def putRows (nid : Nat) (usePri : Bool) (pr : Int) (host : String) (now : Rat) :
    List InRow → List QRow
  | [] => []
  | r :: rs =>
      { sq_id := nid
        sq_priority := if usePri then r.pri else pr
        sq_status := STATUS_AVAILABLE
        sq_put_time := some now
        sq_put_hostname := some host
        sq_claim_time := none
        sq_claim_hostname := none
        sq_get_time := none
        sq_get_hostname := none
        sq_finish_time := none
        payload := r.payload } :: putRows (nid + 1) usePri pr host now rs

/-- `SQLQueue.put(df, priority_included, priority)`.  If the dataframe
has no `sq_priority` column, `priority_included` is forced to `False`;
the `priority` argument is clamped to `[MIN_PRIORITY, MAX_PRIORITY]` and
used for every row unless the dataframe's own column is kept. -/
def put (s : QState) (b : InBatch) (priority_included : Bool) (priority : Int)
    (host : String) (now : Rat) : QState :=
  let usePri := b.has_priority_col && priority_included
  let pr := clampArg priority
  { rows := s.rows ++ putRows s.next_id usePri pr host now b.rows
    next_id := s.next_id + b.rows.length }

/-- The `WHERE sq_status = 'AVAILABLE' and <conditional_claim>` filter of
`SQLQueue.claim`'s select. -/
def eligible (pred : QRow → Bool) (r : QRow) : Bool :=
  r.sq_status == STATUS_AVAILABLE && pred r

/-- `cLT a b`: row `b` is ranked strictly before row `a` by
`ORDER BY sq_priority DESC, sq_id ASC` (higher priority first, ties by
lower id). -/
def cLT (a b : QRow) : Prop :=
  a.sq_priority < b.sq_priority ∨ (a.sq_priority = b.sq_priority ∧ b.sq_id < a.sq_id)

instance (a b : QRow) : Decidable (cLT a b) := by
  unfold cLT; infer_instance

/-- Fold step selecting the best-ranked of two rows. -/
def pickBest (b r : QRow) : QRow :=
  if cLT b r then r else b

/-- The row returned by `SQLQueue.claim`'s
`SELECT sq_id ... WHERE sq_status = 'AVAILABLE' <pred>
ORDER BY sq_priority DESC, sq_id ASC LIMIT 1`:
the best-ranked eligible row, if any. -/
def claimPick (rows : List QRow) (pred : QRow → Bool) : Option QRow :=
  match rows.filter (eligible pred) with
  | [] => none
  | r :: rs => some (rs.foldl pickBest r)

/-- `SQLQueue.claim(conditional_claim)`: select the best-ranked AVAILABLE
row matching the predicate; if one exists, set its `sq_status` to
CLAIMED, stamp `sq_claim_time = now()` and `sq_claim_hostname`, and
return its `sq_id`; otherwise return `-1`. -/
def claim (s : QState) (pred : QRow → Bool) (host : String) (now : Rat) :
    QState × Int :=
  match claimPick s.rows pred with
  | none => (s, -1)
  | some sel =>
      ({ s with
          rows := s.rows.map fun r =>
            if r.sq_id = sel.sq_id then
              { r with
                  sq_status := STATUS_CLAIMED
                  sq_claim_time := some now
                  sq_claim_hostname := some host }
            else r },
       (sel.sq_id : Int))

/-- `SQLQueue.get(row_id)`: first `UPDATE ... SET sq_get_time = now(),
sq_status = 'IN_PROGRESS', sq_get_hostname = <host> WHERE sq_id = row_id`,
then `SELECT * ... WHERE sq_id = row_id`, returning the selected rows. -/
def get (s : QState) (row_id : Int) (host : String) (now : Rat) :
    QState × List QRow :=
  let s1 : QState :=
    { s with
        rows := s.rows.map fun r =>
          if (r.sq_id : Int) = row_id then
            { r with
                sq_get_time := some now
                sq_status := STATUS_PROGRESS
                sq_get_hostname := some host }
          else r }
  (s1, s1.rows.filter fun r => (r.sq_id : Int) == row_id)

/-- `SQLQueue.finish(row_id, finish_status)`: `UPDATE ... SET
sq_finish_time = now(), sq_status = <finish_status> WHERE sq_id = row_id`. -/
def finish (s : QState) (row_id : Int) (finish_status : String) (now : Rat) :
    QState :=
  { s with
      rows := s.rows.map fun r =>
        if (r.sq_id : Int) = row_id then
          { r with sq_finish_time := some now, sq_status := finish_status }
        else r }

/-- `SQLQueue.get_status(row_id)`: select the status of the rows with the
given id; return the first one, or `DOESNOTEXIST` when none matched. -/
def get_status (s : QState) (row_id : Int) : String :=
  match s.rows.filter (fun r => (r.sq_id : Int) == row_id) with
  | [] => STATUS_NOEXIST
  | r :: _ => r.sq_status

/-- The `WHERE` clause of `cleanup_long_running_rows`'s select: the row
is IN_PROGRESS with a non-null `sq_get_time` whose age in hours
(`EXTRACT(EPOCH FROM now() - sq_get_time)/3600`) exceeds the in-progress
timeout, or CLAIMED with a non-null `sq_claim_time` whose age in hours
exceeds the claimed timeout. -/
def timedOut (now tip tcl : Rat) (r : QRow) : Bool :=
  (r.sq_status == STATUS_PROGRESS &&
    (match r.sq_get_time with
     | some t => decide ((now - t) / 3600 > tip)
     | none => false)) ||
  (r.sq_status == STATUS_CLAIMED &&
    (match r.sq_claim_time with
     | some t => decide ((now - t) / 3600 > tcl)
     | none => false))

/-- The specification's wording of an expired lease: the row is stuck in
IN_PROGRESS with its `sq_get_time` older than the in-progress timeout
(in hours), or stuck in CLAIMED with its `sq_claim_time` older than the
claimed timeout. -/
def leaseExpired (now tip tcl : Rat) (r : QRow) : Prop :=
  (r.sq_status = STATUS_PROGRESS ∧
    ∃ t, r.sq_get_time = some t ∧ (now - t) / 3600 > tip) ∨
  (r.sq_status = STATUS_CLAIMED ∧
    ∃ t, r.sq_claim_time = some t ∧ (now - t) / 3600 > tcl)

/-- `SQLQueue.cleanup_long_running_rows(in_progress_timeout_h,
claimed_timeout_h)`: select the timed-out rows; when at least one
matched, set `sq_status = 'DESTROYED'` for every row whose `sq_id` is
among the selected ids; return the selected rows (read before the
update). -/
def cleanup_long_running_rows (s : QState) (tip tcl : Rat) (now : Rat) :
    QState × List QRow :=
  let sel := s.rows.filter (timedOut now tip tcl)
  if sel.isEmpty then (s, sel)
  else
    ({ s with
        rows := s.rows.map fun r =>
          if (sel.map QRow.sq_id).contains r.sq_id then
            { r with sq_status := STATUS_DESTROYED }
          else r },
     sel)

/-- The membership test produced by interpolating
`"', '".join(status_list)` into `WHERE sq_status in ('...')`: ordinary
membership for a non-empty list, but the empty list yields
`in ('')`, matching exactly the empty-string status. -/
def statusInList (status_list : List String) (st : String) : Bool :=
  if status_list.isEmpty then st == "" else status_list.contains st

/-- `SQLQueue.set_destroyed(status_list)`: under a table lock, select the
rows whose status is in the interpolated list, update those same rows to
DESTROYED, and return the `sq_id`s of the selected rows. -/
def set_destroyed (s : QState) (status_list : List String) :
    QState × List Nat :=
  let sel := s.rows.filter fun r => statusInList status_list r.sq_status
  ({ s with
      rows := s.rows.map fun r =>
        if statusInList status_list r.sq_status then
          { r with sq_status := STATUS_DESTROYED }
        else r },
   sel.map QRow.sq_id)

/-- Python-dict assignment `d[k] = v` on an association list with unique
keys: overwrite in place when the key exists, append otherwise. -/
def dictSet : List (String × String) → String → String → List (String × String)
  | [], k, v => [(k, v)]
  | p :: d, k, v => if p.1 = k then (k, v) :: d else p :: dictSet d k v

/-- Python-dict lookup `d[k]` on an association list. -/
def dictLookup : List (String × String) → String → Option String
  | [], _ => none
  | p :: d, k => if p.1 = k then some p.2 else dictLookup d k

/-- The nine reserved meta-column definitions assigned by
`SQLQueue.create_table`, in assignment order. -/
def reservedDefs : List (String × String) :=
  [("sq_status", "varchar(20)"),
   ("sq_priority", "int"),
   ("sq_put_time", "timestamp default now()"),
   ("sq_claim_time", "timestamp"),
   ("sq_get_time", "timestamp"),
   ("sq_finish_time", "timestamp"),
   ("sq_put_hostname", "text"),
   ("sq_get_hostname", "text"),
   ("sq_id", "serial primary key")]

/-- `SQLQueue.create_table(squeue_name, column_descriptions, sql_conn)`:
for the postgres dialect, assign the nine reserved meta-column
definitions into the caller's `column_descriptions` dict and build the
table from the result; for any other dialect raise `TypeError`.  The
result is the final column-description dict the `CREATE TABLE` statement
is generated from. -/
def create_table (column_descriptions : List (String × String))
    (sql_type : String) : Except String (List (String × String)) :=
  if sql_type == POSTGRES then
    Except.ok (reservedDefs.foldl (fun d kv => dictSet d kv.1 kv.2)
      column_descriptions)
  else
    Except.error ("We do not support " ++ sql_type ++
      " type for creating SQL tables")

/-- A freshly enqueued AVAILABLE row with the given id and priority,
used in concrete scenarios. -/
def availRow (i : Nat) (p : Int) : QRow :=
  { sq_id := i
    sq_priority := p
    sq_status := STATUS_AVAILABLE
    sq_put_time := some 0
    sq_put_hostname := some "producer"
    sq_claim_time := none
    sq_claim_hostname := none
    sq_get_time := none
    sq_get_hostname := none
    sq_finish_time := none
    payload := [] }

/-- The spec scenario backlog: three AVAILABLE rows with priorities
5, 9, 1 (insertion order = ids 1, 2, 3). -/
def exState : QState := ⟨[availRow 1 5, availRow 2 9, availRow 3 1], 4⟩

/-- A single AVAILABLE row, id 1. -/
def oneRowState : QState := ⟨[availRow 1 5], 2⟩

/-- A queue holding one row whose status is the empty string (reachable
with `finish(1, '')`, since `finish` accepts any caller-defined terminal
status). -/
def blankStatusState : QState := ⟨[{ availRow 1 5 with sq_status := "" }], 2⟩

/-- A queue holding one CLAIMED row whose `sq_claim_time` is 0 (a stale
lease once the clock has advanced). -/
def staleClaimedState : QState :=
  ⟨[{ availRow 1 5 with sq_status := STATUS_CLAIMED, sq_claim_time := some 0 }], 2⟩

/-- A queue with one CLAIMED, one IN_PROGRESS, one AVAILABLE and one
COMPLETED row, for the forced-destroy scenario. -/
def mixedState : QState :=
  ⟨[{ availRow 1 5 with sq_status := STATUS_CLAIMED },
    { availRow 2 5 with sq_status := STATUS_PROGRESS },
    availRow 3 2,
    { availRow 4 1 with sq_status := STATUS_COMPLETED }], 5⟩

/-! ## Helper lemmas about the claim-order fold -/

theorem cLT_trans {a b c : QRow} (h1 : cLT a b) (h2 : cLT b c) : cLT a c := by
  rcases h1 with h1 | ⟨h1, h1'⟩ <;> rcases h2 with h2 | ⟨h2, h2'⟩
  · exact Or.inl (lt_trans h1 h2)
  · exact Or.inl (h2 ▸ h1)
  · exact Or.inl (h1 ▸ h2)
  · exact Or.inr ⟨h1.trans h2, lt_trans h2' h1'⟩

theorem cLT_total {a b : QRow} (h : a.sq_id ≠ b.sq_id) : cLT a b ∨ cLT b a := by
  unfold cLT
  rcases lt_trichotomy a.sq_priority b.sq_priority with hp | hp | hp
  · exact Or.inl (Or.inl hp)
  · rcases Nat.lt_or_ge a.sq_id b.sq_id with hi | hi
    · exact Or.inr (Or.inr ⟨hp.symm, hi⟩)
    · exact Or.inl (Or.inr ⟨hp, Nat.lt_of_le_of_ne hi (Ne.symm h)⟩)
  · exact Or.inr (Or.inl hp)

theorem foldl_pickBest_mem (rs : List QRow) (r : QRow) :
    rs.foldl pickBest r ∈ r :: rs := by
  induction rs generalizing r with
  | nil => simp
  | cons y ys ih =>
      have h1 : List.foldl pickBest r (y :: ys) =
          List.foldl pickBest (pickBest r y) ys := rfl
      rw [h1]
      have h2 := ih (pickBest r y)
      rcases List.mem_cons.mp h2 with h2 | h2
      · rw [h2]
        unfold pickBest
        split
        · simp
        · simp
      · simp [h2]

theorem foldl_pickBest_max (rs : List QRow) (r : QRow)
    (hinj : ∀ x ∈ r :: rs, ∀ y ∈ r :: rs, x.sq_id = y.sq_id → x = y) :
    ∀ x ∈ r :: rs, x = rs.foldl pickBest r ∨ cLT x (rs.foldl pickBest r) := by
  induction rs generalizing r with
  | nil =>
      intro x hx
      simp only [List.mem_singleton] at hx
      simp [hx]
  | cons y ys ih =>
      have hstep : List.foldl pickBest r (y :: ys) =
          List.foldl pickBest (pickBest r y) ys := rfl
      have hsub : ∀ z ∈ pickBest r y :: ys, z ∈ r :: y :: ys := by
        intro z hz
        rcases List.mem_cons.mp hz with hz | hz
        · unfold pickBest at hz
          split at hz
          · simp [hz]
          · simp [hz]
        · simp [hz]
      have hinj2 : ∀ a ∈ pickBest r y :: ys, ∀ b ∈ pickBest r y :: ys,
          a.sq_id = b.sq_id → a = b := fun a ha b hb =>
        hinj a (hsub a ha) b (hsub b hb)
      have hrec := ih (pickBest r y) hinj2
      have hr : r = List.foldl pickBest (pickBest r y) ys ∨
          cLT r (List.foldl pickBest (pickBest r y) ys) := by
        by_cases hb : cLT r y
        · have hy := hrec y (by unfold pickBest; simp [hb])
          rcases hy with hy | hy
          · exact Or.inr (hy ▸ hb)
          · exact Or.inr (cLT_trans hb hy)
        · exact hrec r (by unfold pickBest; simp [hb])
      have hy : y = List.foldl pickBest (pickBest r y) ys ∨
          cLT y (List.foldl pickBest (pickBest r y) ys) := by
        by_cases hb : cLT r y
        · exact hrec y (by unfold pickBest; simp [hb])
        · by_cases hid : y.sq_id = r.sq_id
          · have hyr : y = r := hinj y (by simp) r (by simp) hid
            subst hyr
            exact hr
          · have hylt : cLT y r := by
              rcases cLT_total (a := r) (b := y) (fun h => hid h.symm) with h | h
              · exact absurd h hb
              · exact h
            rcases hr with hr | hr
            · exact Or.inr (hr ▸ hylt)
            · exact Or.inr (cLT_trans hylt hr)
      intro x hx
      rw [hstep]
      rcases List.mem_cons.mp hx with hx | hx
      · rw [hx]
        exact hr
      rcases List.mem_cons.mp hx with hx | hx
      · rw [hx]
        exact hy
      · exact hrec x (List.mem_cons_of_mem _ hx)

theorem claimPick_none_iff (rows : List QRow) (pred : QRow → Bool) :
    claimPick rows pred = none ↔ ∀ r ∈ rows, ¬(eligible pred r = true) := by
  unfold claimPick
  constructor
  · intro h
    cases hf : rows.filter (eligible pred) with
    | nil =>
        intro r hr hel
        have : r ∈ rows.filter (eligible pred) := List.mem_filter.mpr ⟨hr, hel⟩
        simp [hf] at this
    | cons a l => simp [hf] at h
  · intro h
    have hf : rows.filter (eligible pred) = [] := by
      rw [List.filter_eq_nil_iff]
      exact fun a ha => h a ha
    simp [hf]

theorem claimPick_mem {rows : List QRow} {pred : QRow → Bool} {sel : QRow}
    (h : claimPick rows pred = some sel) :
    sel ∈ rows ∧ eligible pred sel = true := by
  unfold claimPick at h
  cases hf : rows.filter (eligible pred) with
  | nil => simp [hf] at h
  | cons a l =>
      rw [hf] at h
      simp only [Option.some.injEq] at h
      have hmem : sel ∈ a :: l := h ▸ foldl_pickBest_mem l a
      have : sel ∈ rows.filter (eligible pred) := hf ▸ hmem
      exact ⟨(List.mem_filter.mp this).1, (List.mem_filter.mp this).2⟩

theorem claimPick_max {rows : List QRow} {pred : QRow → Bool} {sel : QRow}
    (hnd : (rows.map QRow.sq_id).Nodup)
    (h : claimPick rows pred = some sel) :
    ∀ r ∈ rows, eligible pred r = true → r = sel ∨ cLT r sel := by
  have hsl : (rows.filter (eligible pred)).Sublist rows := List.filter_sublist rows
  have hndf : ((rows.filter (eligible pred)).map QRow.sq_id).Nodup :=
    hnd.sublist (hsl.map QRow.sq_id)
  have hinj : ∀ x ∈ rows.filter (eligible pred),
      ∀ y ∈ rows.filter (eligible pred), x.sq_id = y.sq_id → x = y :=
    List.inj_on_of_nodup_map hndf
  intro r hr hel
  have hrf : r ∈ rows.filter (eligible pred) := List.mem_filter.mpr ⟨hr, hel⟩
  unfold claimPick at h
  cases hf : rows.filter (eligible pred) with
  | nil => simp [hf] at h
  | cons a l =>
      rw [hf] at h
      simp only [Option.some.injEq] at h
      rw [hf] at hrf hinj
      exact h ▸ foldl_pickBest_max l a hinj r hrf

/-! ## C1: claim selects the best-ranked AVAILABLE row -/

/-- C1: on a backlog with distinct ids, (i) when no AVAILABLE row
satisfies the predicate, `claim` leaves the state unchanged and returns
the sentinel `-1`; (ii) a successful `claim` returns the `sq_id` of an
AVAILABLE row satisfying the predicate that is maximal under
(`sq_priority` descending, `sq_id` ascending) among all such rows, and
transitions exactly that row to CLAIMED (stamping its claim time and
hostname), leaving every other row unchanged; (iii) hence two successive
successful claims return rows in strictly descending priority with ties
broken by ascending id. -/
theorem claim_spec (s : QState) (pred : QRow → Bool) (host : String) (now : Rat)
    (hnd : (s.rows.map QRow.sq_id).Nodup) :
    ((∀ r ∈ s.rows, ¬(r.sq_status = STATUS_AVAILABLE ∧ pred r = true)) →
        claim s pred host now = (s, -1)) ∧
    (∀ sel, claimPick s.rows pred = some sel →
      (claim s pred host now).2 = (sel.sq_id : Int) ∧
      sel ∈ s.rows ∧ sel.sq_status = STATUS_AVAILABLE ∧ pred sel = true ∧
      (∀ r ∈ s.rows, r.sq_status = STATUS_AVAILABLE → pred r = true → r ≠ sel →
        r.sq_priority < sel.sq_priority ∨
          (r.sq_priority = sel.sq_priority ∧ sel.sq_id < r.sq_id)) ∧
      (claim s pred host now).1.rows =
        s.rows.map (fun r =>
          if r.sq_id = sel.sq_id then
            { r with
                sq_status := STATUS_CLAIMED
                sq_claim_time := some now
                sq_claim_hostname := some host }
          else r)) ∧
    (∀ sel sel2, claimPick s.rows pred = some sel →
      claimPick (claim s pred host now).1.rows pred = some sel2 →
      sel2.sq_priority < sel.sq_priority ∨
        (sel2.sq_priority = sel.sq_priority ∧ sel.sq_id < sel2.sq_id)) := by
  refine ⟨?_, ?_, ?_⟩
  · intro h
    have hnone : claimPick s.rows pred = none := by
      rw [claimPick_none_iff]
      intro r hr hel
      rw [eligible, Bool.and_eq_true, beq_iff_eq] at hel
      exact h r hr hel
    simp [claim, hnone]
  · intro sel hsel
    obtain ⟨hselmem, hseleli⟩ := claimPick_mem hsel
    rw [eligible, Bool.and_eq_true, beq_iff_eq] at hseleli
    have hmax := claimPick_max hnd hsel
    refine ⟨by simp [claim, hsel], hselmem, hseleli.1, hseleli.2, ?_, by
      simp [claim, hsel]⟩
    intro r hr hst hp hne
    have := hmax r hr (by rw [eligible, Bool.and_eq_true, beq_iff_eq]; exact ⟨hst, hp⟩)
    rcases this with h | h
    · exact absurd h hne
    · exact h
  · intro sel sel2 hsel hsel2
    have hrows : (claim s pred host now).1.rows =
        s.rows.map (fun r =>
          if r.sq_id = sel.sq_id then
            { r with
                sq_status := STATUS_CLAIMED
                sq_claim_time := some now
                sq_claim_hostname := some host }
          else r) := by
      simp [claim, hsel]
    obtain ⟨h2mem, h2eli⟩ := claimPick_mem hsel2
    rw [hrows] at h2mem
    obtain ⟨r, hr, hupd⟩ := List.mem_map.mp h2mem
    by_cases hid : r.sq_id = sel.sq_id
    · exfalso
      rw [if_pos hid] at hupd
      rw [eligible, Bool.and_eq_true, beq_iff_eq] at h2eli
      have : sel2.sq_status = STATUS_CLAIMED := by rw [← hupd]
      rw [h2eli.1] at this
      simp [STATUS_AVAILABLE, STATUS_CLAIMED] at this
    · rw [if_neg hid] at hupd
      subst hupd
      have hmax := claimPick_max hnd hsel
      have := hmax r hr h2eli
      rcases this with h | h
      · exact absurd (congrArg QRow.sq_id h) hid
      · exact h

/-- Witness for C1 at the spec scenario backlog (priorities 5, 9, 1,
trivial predicate). -/
theorem claim_spec_witness :
    (exState.rows.map QRow.sq_id).Nodup ∧
    (((∀ r ∈ exState.rows,
          ¬(r.sq_status = STATUS_AVAILABLE ∧ (fun _ => true) r = true)) →
        claim exState (fun _ => true) "worker" 1 = (exState, -1)) ∧
    (∀ sel, claimPick exState.rows (fun _ => true) = some sel →
      (claim exState (fun _ => true) "worker" 1).2 = (sel.sq_id : Int) ∧
      sel ∈ exState.rows ∧ sel.sq_status = STATUS_AVAILABLE ∧
        (fun _ => true) sel = true ∧
      (∀ r ∈ exState.rows, r.sq_status = STATUS_AVAILABLE →
          (fun _ => true) r = true → r ≠ sel →
        r.sq_priority < sel.sq_priority ∨
          (r.sq_priority = sel.sq_priority ∧ sel.sq_id < r.sq_id)) ∧
      (claim exState (fun _ => true) "worker" 1).1.rows =
        exState.rows.map (fun r =>
          if r.sq_id = sel.sq_id then
            { r with
                sq_status := STATUS_CLAIMED
                sq_claim_time := some 1
                sq_claim_hostname := some "worker" }
          else r)) ∧
    (∀ sel sel2, claimPick exState.rows (fun _ => true) = some sel →
      claimPick (claim exState (fun _ => true) "worker" 1).1.rows
          (fun _ => true) = some sel2 →
      sel2.sq_priority < sel.sq_priority ∨
        (sel2.sq_priority = sel.sq_priority ∧ sel.sq_id < sel2.sq_id))) :=
  ⟨by decide, claim_spec exState (fun _ => true) "worker" 1 (by decide)⟩

/-! ## C2: the recovery scanner destroys exactly the expired leases -/

theorem leaseExpired_iff_timedOut (now tip tcl : Rat) (r : QRow) :
    leaseExpired now tip tcl r ↔ timedOut now tip tcl r = true := by
  unfold leaseExpired timedOut
  rw [Bool.or_eq_true, Bool.and_eq_true, Bool.and_eq_true, beq_iff_eq, beq_iff_eq]
  constructor
  · rintro (⟨hst, t, ht, hgt⟩ | ⟨hst, t, ht, hgt⟩)
    · exact Or.inl ⟨hst, by rw [ht]; simpa using hgt⟩
    · exact Or.inr ⟨hst, by rw [ht]; simpa using hgt⟩
  · rintro (⟨hst, hm⟩ | ⟨hst, hm⟩)
    · left
      refine ⟨hst, ?_⟩
      cases ht : r.sq_get_time with
      | none => rw [ht] at hm; simp at hm
      | some t => rw [ht] at hm; exact ⟨t, rfl, by simpa using hm⟩
    · right
      refine ⟨hst, ?_⟩
      cases ht : r.sq_claim_time with
      | none => rw [ht] at hm; simp at hm
      | some t => rw [ht] at hm; exact ⟨t, rfl, by simpa using hm⟩

theorem id_inj_of_nodup {l : List QRow}
    (hnd : (l.map QRow.sq_id).Nodup) :
    ∀ x ∈ l, ∀ y ∈ l, x.sq_id = y.sq_id → x = y :=
  List.inj_on_of_nodup_map hnd

/-- C2: on a queue with distinct ids, `cleanup_long_running_rows`
returns exactly the rows whose lease has expired at `now` (CLAIMED older
than the claimed timeout, or IN_PROGRESS older than the in-progress
timeout, both in hours), and the new state marks exactly those rows
DESTROYED, every field of every other row being unchanged. -/
theorem cleanup_spec (s : QState) (tip tcl now : Rat)
    (hnd : (s.rows.map QRow.sq_id).Nodup) :
    (∀ r, r ∈ (cleanup_long_running_rows s tip tcl now).2 ↔
        r ∈ s.rows ∧ leaseExpired now tip tcl r) ∧
    ((cleanup_long_running_rows s tip tcl now).1.rows =
      s.rows.map fun r =>
        if timedOut now tip tcl r then { r with sq_status := STATUS_DESTROYED }
        else r) := by
  have hsnd : (cleanup_long_running_rows s tip tcl now).2 =
      s.rows.filter (timedOut now tip tcl) := by
    unfold cleanup_long_running_rows
    dsimp only
    split <;> rfl
  constructor
  · intro r
    rw [hsnd, List.mem_filter, leaseExpired_iff_timedOut]
  · unfold cleanup_long_running_rows
    dsimp only
    split
    · next hemp =>
        rw [List.isEmpty_iff, List.filter_eq_nil_iff] at hemp
        have : ∀ r ∈ s.rows,
            (if timedOut now tip tcl r then
              { r with sq_status := STATUS_DESTROYED } else r) = id r := by
          intro r hr
          rw [if_neg (by simpa using hemp r hr)]
          rfl
        rw [List.map_congr_left this, List.map_id]
    · next hemp =>
        apply List.map_congr_left
        intro r hr
        by_cases htr : timedOut now tip tcl r = true
        · have hmem : r.sq_id ∈
              (s.rows.filter (timedOut now tip tcl)).map QRow.sq_id :=
            List.mem_map.mpr ⟨r, List.mem_filter.mpr ⟨hr, htr⟩, rfl⟩
          rw [if_pos (List.elem_iff.mpr hmem), if_pos htr]
        · have hnmem : ¬(((s.rows.filter
              (timedOut now tip tcl)).map QRow.sq_id).contains r.sq_id = true) := by
            rw [List.elem_iff]
            intro hmem
            obtain ⟨r2, hr2, hid⟩ := List.mem_map.mp hmem
            obtain ⟨hr2m, hr2t⟩ := List.mem_filter.mp hr2
            have : r2 = r := id_inj_of_nodup hnd r2 hr2m r hr hid
            rw [this] at hr2t
            exact htr hr2t
          rw [if_neg hnmem, if_neg htr]

/-- Witness for C2: a row CLAIMED at time 0, scanned two hours later
with a one-hour claimed timeout. -/
theorem cleanup_spec_witness :
    (staleClaimedState.rows.map QRow.sq_id).Nodup ∧
    ((∀ r, r ∈ (cleanup_long_running_rows staleClaimedState 8 1 7200).2 ↔
        r ∈ staleClaimedState.rows ∧ leaseExpired 7200 8 1 r) ∧
    ((cleanup_long_running_rows staleClaimedState 8 1 7200).1.rows =
      staleClaimedState.rows.map fun r =>
        if timedOut 7200 8 1 r then { r with sq_status := STATUS_DESTROYED }
        else r)) :=
  ⟨by decide, cleanup_spec staleClaimedState 8 1 7200 (by decide)⟩

/-! ## C3: forced destroy of a caller-specified status set -/

/-- C3 counterexample: called with the empty status list,
`set_destroyed` destroys and returns a row whose status is the empty
string — although the empty string is not a member of the empty status
list, so the claim says no row should be affected.  (The interpolation
`"', '".join([])` produces `WHERE sq_status in ('')`.) -/
theorem set_destroyed_empty_counterexample :
    (set_destroyed blankStatusState []).2 = [1] ∧
    ((set_destroyed blankStatusState []).1.rows.map QRow.sq_status) =
      [STATUS_DESTROYED] ∧
    (blankStatusState.rows.map QRow.sq_status) = [""] ∧
    "" ∉ ([] : List String) := by
  refine ⟨by decide, by decide, by decide, by simp⟩

theorem statusInList_ne_empty {sl : List String} (hne : sl ≠ []) (st : String) :
    statusInList sl st = decide (st ∈ sl) := by
  unfold statusInList
  rw [if_neg (by rw [List.isEmpty_iff]; exact hne)]
  by_cases h : st ∈ sl
  · rw [decide_eq_true h]
    exact List.elem_iff.mpr h
  · rw [decide_eq_false h, Bool.eq_false_iff]
    intro hc
    exact h (List.elem_iff.mp hc)

/-- C3 amended: for every queue state and every NON-EMPTY caller-specified
status list, `set_destroyed(status_list)` sets `sq_status` to DESTROYED
for exactly the rows whose status is in `status_list`, leaves every
field of every other row unchanged, and returns exactly the `sq_id`s of
the affected rows (in table order).  (For the empty status list the
generated SQL instead matches exactly the rows whose status is the empty
string.) -/
theorem set_destroyed_spec (s : QState) (sl : List String) (hne : sl ≠ []) :
    ((set_destroyed s sl).2 =
      (s.rows.filter fun r => decide (r.sq_status ∈ sl)).map QRow.sq_id) ∧
    ((set_destroyed s sl).1.rows = s.rows.map fun r =>
      if r.sq_status ∈ sl then { r with sq_status := STATUS_DESTROYED }
      else r) := by
  have hfc : (s.rows.filter fun r => statusInList sl r.sq_status) =
      s.rows.filter (fun r => decide (r.sq_status ∈ sl)) :=
    List.filter_congr (fun r _ => statusInList_ne_empty hne r.sq_status)
  constructor
  · show ((s.rows.filter fun r => statusInList sl r.sq_status).map QRow.sq_id) = _
    rw [hfc]
  · show (s.rows.map fun r => if statusInList sl r.sq_status then
        { r with sq_status := STATUS_DESTROYED } else r) = _
    apply List.map_congr_left
    intro r _
    by_cases hmem : r.sq_status ∈ sl
    · rw [if_pos ((statusInList_ne_empty hne _).trans (decide_eq_true hmem)),
        if_pos hmem]
    · rw [if_neg (fun hc => hmem (of_decide_eq_true
        ((statusInList_ne_empty hne _).symm.trans hc))), if_neg hmem]

/-- Witness for C3 at the forced-destroy scenario: statuses
`[CLAIMED, IN_PROGRESS]` against a queue also holding an AVAILABLE and a
COMPLETED row. -/
theorem set_destroyed_spec_witness :
    ([STATUS_CLAIMED, STATUS_PROGRESS] ≠ ([] : List String)) ∧
    (((set_destroyed mixedState [STATUS_CLAIMED, STATUS_PROGRESS]).2 =
      (mixedState.rows.filter fun r =>
        decide (r.sq_status ∈ [STATUS_CLAIMED, STATUS_PROGRESS])).map
          QRow.sq_id) ∧
    ((set_destroyed mixedState [STATUS_CLAIMED, STATUS_PROGRESS]).1.rows =
      mixedState.rows.map fun r =>
        if r.sq_status ∈ [STATUS_CLAIMED, STATUS_PROGRESS] then
          { r with sq_status := STATUS_DESTROYED }
        else r)) :=
  ⟨by decide, set_destroyed_spec mixedState [STATUS_CLAIMED, STATUS_PROGRESS]
    (by decide)⟩

/-! ## C4: who writes which meta fields -/

/-- C4 counterexample: `get` stamps `sq_get_time`/`sq_get_hostname`
unconditionally, so invoking it twice on the same row overwrites the
already-set values — the fields are not set at most once. -/
theorem meta_once_counterexample :
    ((get oneRowState 1 "worker1" 100).1.rows.map QRow.sq_get_time) =
      [some 100] ∧
    ((get (get oneRowState 1 "worker1" 100).1 1 "worker2" 200).1.rows.map
      QRow.sq_get_time) = [some 200] ∧
    ((get (get oneRowState 1 "worker1" 100).1 1 "worker2" 200).1.rows.map
      QRow.sq_get_hostname) = [some "worker2"] ∧
    (some (100 : Rat) ≠ some (200 : Rat)) := by
  refine ⟨by decide, by decide, by decide, by decide⟩

theorem map_proj_map {α : Type} (proj : QRow → α) (f : QRow → QRow)
    (l : List QRow) (h : ∀ r, proj (f r) = proj r) :
    (l.map f).map proj = l.map proj := by
  rw [List.map_map]
  exact List.map_congr_left (fun r _ => h r)

/-- C4 amended: each meta field is written only by its own operation.
`put` only appends rows (never touching existing ones), and
`sq_put_time`/`sq_put_hostname` are never written by any later
operation; `claim` leaves the get and finish fields of every row
unchanged; `get` leaves the claim and finish fields unchanged; `finish`
leaves the claim and get fields unchanged; the recovery scanner and
forced destroy leave every timestamp/hostname field of every row
unchanged.  However `get` and `finish` stamp their fields on every
invocation, so re-invocation overwrites them (see the counterexample);
the fields are not "set at most once". -/
theorem meta_field_ownership (s : QState) (b : InBatch) (pic : Bool) (p : Int)
    (host : String) (now : Rat) (pred : QRow → Bool) (rid : Int) (fst : String)
    (sl : List String) (tip tcl : Rat) :
    (∃ new, (put s b pic p host now).rows = s.rows ++ new) ∧
    ((claim s pred host now).1.rows.map (fun r =>
        (r.sq_put_time, r.sq_put_hostname, r.sq_get_time, r.sq_get_hostname,
         r.sq_finish_time)) =
      s.rows.map (fun r =>
        (r.sq_put_time, r.sq_put_hostname, r.sq_get_time, r.sq_get_hostname,
         r.sq_finish_time))) ∧
    ((get s rid host now).1.rows.map (fun r =>
        (r.sq_put_time, r.sq_put_hostname, r.sq_claim_time,
         r.sq_claim_hostname, r.sq_finish_time)) =
      s.rows.map (fun r =>
        (r.sq_put_time, r.sq_put_hostname, r.sq_claim_time,
         r.sq_claim_hostname, r.sq_finish_time))) ∧
    ((finish s rid fst now).rows.map (fun r =>
        (r.sq_put_time, r.sq_put_hostname, r.sq_claim_time,
         r.sq_claim_hostname, r.sq_get_time, r.sq_get_hostname)) =
      s.rows.map (fun r =>
        (r.sq_put_time, r.sq_put_hostname, r.sq_claim_time,
         r.sq_claim_hostname, r.sq_get_time, r.sq_get_hostname))) ∧
    ((cleanup_long_running_rows s tip tcl now).1.rows.map (fun r =>
        (r.sq_put_time, r.sq_put_hostname, r.sq_claim_time,
         r.sq_claim_hostname, r.sq_get_time, r.sq_get_hostname,
         r.sq_finish_time)) =
      s.rows.map (fun r =>
        (r.sq_put_time, r.sq_put_hostname, r.sq_claim_time,
         r.sq_claim_hostname, r.sq_get_time, r.sq_get_hostname,
         r.sq_finish_time))) ∧
    ((set_destroyed s sl).1.rows.map (fun r =>
        (r.sq_put_time, r.sq_put_hostname, r.sq_claim_time,
         r.sq_claim_hostname, r.sq_get_time, r.sq_get_hostname,
         r.sq_finish_time)) =
      s.rows.map (fun r =>
        (r.sq_put_time, r.sq_put_hostname, r.sq_claim_time,
         r.sq_claim_hostname, r.sq_get_time, r.sq_get_hostname,
         r.sq_finish_time))) := by
  refine ⟨⟨putRows s.next_id (b.has_priority_col && pic) (clampArg p) host now
      b.rows, rfl⟩, ?_, ?_, ?_, ?_, ?_⟩
  · cases hc : claimPick s.rows pred with
    | none => simp [claim, hc]
    | some sel =>
        simp only [claim, hc]
        apply map_proj_map
        intro r
        split <;> rfl
  · apply map_proj_map
    intro r
    split <;> rfl
  · apply map_proj_map
    intro r
    split <;> rfl
  · unfold cleanup_long_running_rows
    dsimp only
    split
    · rfl
    · apply map_proj_map
      intro r
      split <;> rfl
  · apply map_proj_map
    intro r
    split <;> rfl

/-! ## C5 and C10: what put stamps on inserted rows -/

/-- C5 counterexample: a batch carrying its own `sq_priority` column with
value 11 (and `priority_included=True`) is inserted with priority 11,
outside [1,10] — `put` clamps only its `priority` argument, never the
dataframe's own column. -/
theorem put_clamp_counterexample :
    ((put ⟨[], 1⟩ ⟨true, [⟨[], 11, "", ""⟩]⟩ true 1 "host" 0).rows.map
      QRow.sq_priority) = [11] ∧
    ¬((11 : Int) ≤ MAX_PRIORITY) := by
  refine ⟨by decide, by decide⟩

theorem putRows_map_priority (nid : Nat) (usePri : Bool) (pr : Int)
    (host : String) (now : Rat) (l : List InRow) :
    (putRows nid usePri pr host now l).map QRow.sq_priority =
      (if usePri then l.map InRow.pri else l.map (fun _ => pr)) := by
  induction l generalizing nid with
  | nil => split <;> rfl
  | cons r rs ih =>
      unfold putRows
      simp only [List.map_cons, ih]
      split <;> simp

theorem clampArg_mem (p : Int) :
    MIN_PRIORITY ≤ clampArg p ∧ clampArg p ≤ MAX_PRIORITY := by
  simp only [clampArg, MIN_PRIORITY, MAX_PRIORITY]
  split_ifs <;> omega

/-- C5 amended: the rows `put` appends get priority as follows — when the
batch has an `sq_priority` column and `priority_included` is true, each
row keeps its own column value UNCLAMPED; otherwise every row gets the
`priority` argument clamped into `[MIN_PRIORITY, MAX_PRIORITY] = [1,10]`
(so only argument-sourced priorities are guaranteed in range). -/
theorem put_priority_spec (s : QState) (b : InBatch) (pic : Bool) (p : Int)
    (host : String) (now : Rat) :
    (((put s b pic p host now).rows.drop s.rows.length).map QRow.sq_priority =
      (if b.has_priority_col && pic then b.rows.map InRow.pri
       else b.rows.map (fun _ => clampArg p))) ∧
    (MIN_PRIORITY ≤ clampArg p ∧ clampArg p ≤ MAX_PRIORITY) := by
  constructor
  · show ((s.rows ++ putRows s.next_id (b.has_priority_col && pic) (clampArg p)
        host now b.rows).drop s.rows.length).map QRow.sq_priority = _
    rw [List.drop_left, putRows_map_priority]
  · exact clampArg_mem p

theorem putRows_map_stamp (nid : Nat) (usePri : Bool) (pr : Int)
    (host : String) (now : Rat) (l : List InRow) :
    (putRows nid usePri pr host now l).map
        (fun r => (r.sq_status, r.sq_put_hostname)) =
      l.map (fun _ => (STATUS_AVAILABLE, some host)) := by
  induction l generalizing nid with
  | nil => rfl
  | cons r rs ih =>
      unfold putRows
      simp only [List.map_cons, ih]

/-- C10: every row appended by `put` enters the queue with
`sq_status = AVAILABLE` and `sq_put_hostname = <caller host>`, whatever
`sq_status` or `sq_put_hostname` values the caller's dataframe carried
(the batch's `in_status` and `in_put_hostname` never reach the table). -/
theorem put_stamps_spec (s : QState) (b : InBatch) (pic : Bool) (p : Int)
    (host : String) (now : Rat) :
    ((put s b pic p host now).rows.drop s.rows.length).map
        (fun r => (r.sq_status, r.sq_put_hostname)) =
      b.rows.map (fun _ => (STATUS_AVAILABLE, some host)) := by
  show ((s.rows ++ putRows s.next_id (b.has_priority_col && pic) (clampArg p)
      host now b.rows).drop s.rows.length).map
        (fun r => (r.sq_status, r.sq_put_hostname)) = _
  rw [List.drop_left, putRows_map_stamp]

/-! ## C6: reserved column names in create_table -/

/-- C6 counterexample: a payload column named `sq_status` raises no
"reserved column name" error — `create_table` succeeds, silently
replacing the caller's definition (`int`) with the queue's own
(`varchar(20)`). -/
theorem create_table_counterexample :
    create_table [("sq_status", "int")] POSTGRES = Except.ok reservedDefs ∧
    dictLookup reservedDefs "sq_status" = some "varchar(20)" := by
  refine ⟨by rfl, by rfl⟩

theorem dictLookup_dictSet_self (d : List (String × String)) (k v : String) :
    dictLookup (dictSet d k v) k = some v := by
  induction d with
  | nil => simp [dictSet, dictLookup]
  | cons p d ih =>
      unfold dictSet
      by_cases h : p.1 = k
      · rw [if_pos h]
        simp [dictLookup]
      · rw [if_neg h]
        unfold dictLookup
        rw [if_neg h]
        exact ih

theorem dictLookup_dictSet_ne (d : List (String × String)) (k v k2 : String)
    (h : k2 ≠ k) :
    dictLookup (dictSet d k v) k2 = dictLookup d k2 := by
  have hkk : ¬(k = k2) := fun hh => h hh.symm
  induction d with
  | nil =>
      show (if k = k2 then some v else dictLookup [] k2) = dictLookup [] k2
      rw [if_neg hkk]
  | cons p d ih =>
      unfold dictSet
      by_cases hp : p.1 = k
      · rw [if_pos hp]
        show (if k = k2 then some v else dictLookup d k2) =
          (if p.1 = k2 then some p.2 else dictLookup d k2)
        rw [if_neg hkk, if_neg (by rw [hp]; exact hkk)]
      · rw [if_neg hp]
        show (if p.1 = k2 then some p.2 else dictLookup (dictSet d k v) k2) =
          (if p.1 = k2 then some p.2 else dictLookup d k2)
        by_cases hp2 : p.1 = k2
        · rw [if_pos hp2, if_pos hp2]
        · rw [if_neg hp2, if_neg hp2]
          exact ih

/-- C6 amended: `create_table` never raises a "reserved column name"
error.  For the postgres dialect it always succeeds, silently
overwriting any payload column whose name collides with one of the nine
reserved meta-column names with the queue's own definition, while every
payload column with a non-reserved name keeps the caller's definition. -/
theorem create_table_spec (cds : List (String × String)) (k : String)
    (hk : k ∉ reservedDefs.map Prod.fst) :
    ∃ d, create_table cds POSTGRES = Except.ok d ∧
      (∀ kv ∈ reservedDefs, dictLookup d kv.1 = some kv.2) ∧
      dictLookup d k = dictLookup cds k := by
  simp only [reservedDefs, List.map_cons, List.map_nil, List.mem_cons,
    List.not_mem_nil, or_false, not_or] at hk
  refine ⟨dictSet (dictSet (dictSet (dictSet (dictSet (dictSet (dictSet
      (dictSet (dictSet cds "sq_status" "varchar(20)") "sq_priority" "int")
      "sq_put_time" "timestamp default now()") "sq_claim_time" "timestamp")
      "sq_get_time" "timestamp") "sq_finish_time" "timestamp")
      "sq_put_hostname" "text") "sq_get_hostname" "text")
      "sq_id" "serial primary key", rfl, ?_, ?_⟩
  · intro kv hkv
    simp only [reservedDefs, List.mem_cons, List.not_mem_nil, or_false] at hkv
    rcases hkv with h | h | h | h | h | h | h | h | h <;> subst h <;>
      simp [dictLookup_dictSet_ne, dictLookup_dictSet_self]
  · obtain ⟨h1, h2, h3, h4, h5, h6, h7, h8, h9⟩ := hk
    rw [dictLookup_dictSet_ne _ _ _ _ h9, dictLookup_dictSet_ne _ _ _ _ h8,
      dictLookup_dictSet_ne _ _ _ _ h7, dictLookup_dictSet_ne _ _ _ _ h6,
      dictLookup_dictSet_ne _ _ _ _ h5, dictLookup_dictSet_ne _ _ _ _ h4,
      dictLookup_dictSet_ne _ _ _ _ h3, dictLookup_dictSet_ne _ _ _ _ h2,
      dictLookup_dictSet_ne _ _ _ _ h1]

/-- Witness for C6: a payload column `run_id` passes through unchanged
while the nine reserved columns get the queue's definitions. -/
theorem create_table_spec_witness :
    ("run_id" ∉ reservedDefs.map Prod.fst) ∧
    (∃ d, create_table [("run_id", "int")] POSTGRES = Except.ok d ∧
      (∀ kv ∈ reservedDefs, dictLookup d kv.1 = some kv.2) ∧
      dictLookup d "run_id" = dictLookup [("run_id", "int")] "run_id") :=
  ⟨by decide, create_table_spec [("run_id", "int")] "run_id" (by decide)⟩

/-! ## C7: round trip put → claim → get -/

/-- C7: starting from an empty queue, `put` of one row followed by
`claim()` followed by `get` on the returned id yields exactly one row,
whose payload columns are identical to the enqueued row's and whose
`sq_status` is IN_PROGRESS. -/
theorem round_trip_spec (row : InRow) (hasCol pic : Bool) (p : Int)
    (h1 h2 h3 : String) (t1 t2 t3 : Rat) :
    (get (claim (put ⟨[], 1⟩ ⟨hasCol, [row]⟩ pic p h1 t1)
          (fun _ => true) h2 t2).1
        (claim (put ⟨[], 1⟩ ⟨hasCol, [row]⟩ pic p h1 t1)
          (fun _ => true) h2 t2).2 h3 t3).2.map
        (fun r => (r.payload, r.sq_status)) =
      [(row.payload, STATUS_PROGRESS)] := by
  simp [put, putRows, claim, claimPick, eligible, get, pickBest,
    STATUS_AVAILABLE, STATUS_PROGRESS, List.filter]

/-! ## C8: status lookup -/

/-- C8: on a queue with distinct ids, `get_status(row_id)` returns the
current `sq_status` of the row with that id when it exists — in
particular, right after `finish(row_id, COMPLETED)` it returns
COMPLETED — and returns the DOESNOTEXIST sentinel, not an error, when no
row has that id. -/
theorem get_status_spec (s : QState) (rid : Int)
    (hnd : (s.rows.map QRow.sq_id).Nodup) :
    (∀ r ∈ s.rows, (r.sq_id : Int) = rid → get_status s rid = r.sq_status) ∧
    ((∀ r ∈ s.rows, (r.sq_id : Int) ≠ rid) →
      get_status s rid = STATUS_NOEXIST) ∧
    (∀ now : Rat, (∃ r ∈ s.rows, (r.sq_id : Int) = rid) →
      get_status (finish s rid STATUS_COMPLETED now) rid = STATUS_COMPLETED) := by
  refine ⟨?_, ?_, ?_⟩
  · intro r hr hid
    have hmemf : r ∈ s.rows.filter (fun x => (x.sq_id : Int) == rid) :=
      List.mem_filter.mpr ⟨hr, by simp [hid]⟩
    cases hf : s.rows.filter (fun x => (x.sq_id : Int) == rid) with
    | nil =>
        rw [hf] at hmemf
        simp at hmemf
    | cons r0 rest =>
        have hr0 : r0 ∈ s.rows.filter (fun x => (x.sq_id : Int) == rid) :=
          hf ▸ List.mem_cons_self r0 rest
        obtain ⟨hr0m, hr0id⟩ := List.mem_filter.mp hr0
        have hideq : r0.sq_id = r.sq_id := by
          have e0 : (r0.sq_id : Int) = rid := by simpa using hr0id
          have := e0.trans hid.symm
          exact_mod_cast this
        have hre : r0 = r := id_inj_of_nodup hnd r0 hr0m r hr hideq
        unfold get_status
        rw [hf]
        exact hre ▸ rfl
  · intro hnone
    have hf : s.rows.filter (fun x => (x.sq_id : Int) == rid) = [] := by
      rw [List.filter_eq_nil_iff]
      intro r hr
      simp [hnone r hr]
    unfold get_status
    rw [hf]
  · rintro now ⟨r, hr, hid⟩
    have hrows2 : (finish s rid STATUS_COMPLETED now).rows =
        s.rows.map (fun x =>
          if (x.sq_id : Int) = rid then
            { x with sq_finish_time := some now, sq_status := STATUS_COMPLETED }
          else x) := rfl
    have hall : ∀ x ∈ (finish s rid STATUS_COMPLETED now).rows.filter
        (fun x => (x.sq_id : Int) == rid), x.sq_status = STATUS_COMPLETED := by
      intro x hx
      obtain ⟨hxm, hxid⟩ := List.mem_filter.mp hx
      rw [hrows2] at hxm
      obtain ⟨r1, hr1, hfx⟩ := List.mem_map.mp hxm
      by_cases hc : (r1.sq_id : Int) = rid
      · rw [if_pos hc] at hfx
        rw [← hfx]
      · rw [if_neg hc] at hfx
        rw [← hfx] at hxid
        simp at hxid
        exact absurd hxid hc
    have hmem2 : (if (r.sq_id : Int) = rid then
          { r with sq_finish_time := some now, sq_status := STATUS_COMPLETED }
        else r) ∈ (finish s rid STATUS_COMPLETED now).rows := by
      rw [hrows2]
      exact List.mem_map.mpr ⟨r, hr, rfl⟩
    have hmemf : (if (r.sq_id : Int) = rid then
          { r with sq_finish_time := some now, sq_status := STATUS_COMPLETED }
        else r) ∈ (finish s rid STATUS_COMPLETED now).rows.filter
          (fun x => (x.sq_id : Int) == rid) := by
      refine List.mem_filter.mpr ⟨hmem2, ?_⟩
      rw [if_pos hid]
      simpa using hid
    cases hf2 : (finish s rid STATUS_COMPLETED now).rows.filter
        (fun x => (x.sq_id : Int) == rid) with
    | nil =>
        rw [hf2] at hmemf
        simp at hmemf
    | cons r0 rest =>
        have : r0.sq_status = STATUS_COMPLETED :=
          hall r0 (hf2 ▸ List.mem_cons_self r0 rest)
        unfold get_status
        rw [hf2]
        exact this

/-- Witness for C8 at a one-row queue looked up under its own id. -/
theorem get_status_spec_witness :
    (oneRowState.rows.map QRow.sq_id).Nodup ∧
    ((∀ r ∈ oneRowState.rows, (r.sq_id : Int) = 1 →
        get_status oneRowState 1 = r.sq_status) ∧
    ((∀ r ∈ oneRowState.rows, (r.sq_id : Int) ≠ 1) →
      get_status oneRowState 1 = STATUS_NOEXIST) ∧
    (∀ now : Rat, (∃ r ∈ oneRowState.rows, (r.sq_id : Int) = 1) →
      get_status (finish oneRowState 1 STATUS_COMPLETED now) 1 =
        STATUS_COMPLETED)) :=
  ⟨by decide, get_status_spec oneRowState 1 (by decide)⟩

/-! ## C9: the sentinel -1 is unambiguous -/

/-- C9: `claim` returns the sentinel `-1` exactly when no AVAILABLE row
satisfies the predicate; on a table whose serial ids are positive (as
`sq_id serial primary key` guarantees), every other return value is the
`sq_id` of an actual row and is at least 1, so the sentinel can never
collide with a real row identifier. -/
theorem claim_sentinel_spec (s : QState) (pred : QRow → Bool) (host : String)
    (now : Rat) (hpos : ∀ r ∈ s.rows, 1 ≤ r.sq_id) :
    ((claim s pred host now).2 = -1 ↔
      ∀ r ∈ s.rows, ¬(r.sq_status = STATUS_AVAILABLE ∧ pred r = true)) ∧
    ((claim s pred host now).2 ≠ -1 →
      1 ≤ (claim s pred host now).2 ∧
      ∃ r ∈ s.rows, (r.sq_id : Int) = (claim s pred host now).2) := by
  cases hc : claimPick s.rows pred with
  | none =>
      have h2 : (claim s pred host now).2 = -1 := by simp [claim, hc]
      rw [h2]
      constructor
      · constructor
        · intro _ r hr hel
          have := (claimPick_none_iff s.rows pred).mp hc r hr
          rw [eligible, Bool.and_eq_true, beq_iff_eq] at this
          exact this hel
        · intro _
          rfl
      · intro hne
        exact absurd rfl hne
  | some sel =>
      obtain ⟨hmem, heli⟩ := claimPick_mem hc
      have h2 : (claim s pred host now).2 = (sel.sq_id : Int) := by
        simp [claim, hc]
      have hge : (1 : Int) ≤ (sel.sq_id : Int) := by
        exact_mod_cast hpos sel hmem
      rw [h2]
      rw [eligible, Bool.and_eq_true, beq_iff_eq] at heli
      constructor
      · constructor
        · intro habs
          omega
        · intro hall
          exact absurd heli (hall sel hmem)
      · intro _
        exact ⟨hge, sel, hmem, rfl⟩

/-- Witness for C9 at the scenario backlog. -/
theorem claim_sentinel_spec_witness :
    (∀ r ∈ exState.rows, 1 ≤ r.sq_id) ∧
    (((claim exState (fun _ => true) "worker" 1).2 = -1 ↔
      ∀ r ∈ exState.rows,
        ¬(r.sq_status = STATUS_AVAILABLE ∧ (fun _ => true) r = true)) ∧
    ((claim exState (fun _ => true) "worker" 1).2 ≠ -1 →
      1 ≤ (claim exState (fun _ => true) "worker" 1).2 ∧
      ∃ r ∈ exState.rows,
        (r.sq_id : Int) = (claim exState (fun _ => true) "worker" 1).2)) :=
  ⟨by decide, claim_sentinel_spec exState (fun _ => true) "worker" 1 (by decide)⟩

end SqlQueue
